import Mathlib

/-!
Verification development for the simple-butterfish shell multiplexer
(`butterfish/shell.go`).  Byte strings are modelled as lists of natural
numbers (one entry per byte).  Components whose Go sources are not part of
the provided tree (`ShellBuffer`, `sanitizeTTYString`,
`incompleteAnsiSequence`, the history-type-to-role mapping) are modelled
from the specification document and marked as such in their doc comments.
-/

/-- Byte strings: one natural number per byte. -/
abbrev BStr := List Nat

/-- UTF-8 encoding of one character. -/
def utf8BytesOfChar (c : Char) : BStr :=
  let n := c.toNat
  if n < 0x80 then [n]
  else if n < 0x800 then [0xC0 + n / 0x40, 0x80 + n % 0x40]
  else if n < 0x10000 then
    [0xE0 + n / 0x1000, 0x80 + (n / 0x40) % 0x40, 0x80 + n % 0x40]
  else
    [0xF0 + n / 0x40000, 0x80 + (n / 0x1000) % 0x40, 0x80 + (n / 0x40) % 0x40, 0x80 + n % 0x40]

/-- Convert a Lean string literal to its UTF-8 byte list. -/
def strB (s : String) : BStr :=
  s.data.foldr (fun c acc => utf8BytesOfChar c ++ acc) []

/-- ASCII decimal digit test, as in the regex character class `[0-9]`. -/
def isDigitByte (b : Nat) : Bool := 48 ≤ b && b ≤ 57

/-- Decimal digit list to number, modelling `strconv.Atoi` on an in-range
`[0-9]+` match. -/
def digitsToNat (ds : BStr) : Nat := ds.foldl (fun a d => a * 10 + (d - 48)) 0

/-- Go's `unicode.IsUpper(rune(b))` restricted to byte values: a byte is
converted to the Unicode code point of the same value (Latin-1), so the
uppercase set is A-Z (65-90) plus the Latin-1 uppercase letters
À-Ö (192-214) and Ø-Þ (216-222). -/
def goIsUpperByte (b : Nat) : Bool :=
  (65 ≤ b && b ≤ 90) || (192 ≤ b && b ≤ 214) || (216 ≤ b && b ≤ 222)

/-- Plain ASCII uppercase A-Z, the set named by the specification. -/
def isUpperAscii (b : Nat) : Bool := 65 ≤ b && b ≤ 90

/-! ## ShellBuffer

Modelled from the spec: the `ShellBuffer` source file is not part of the
provided tree.  Spec §4.1: a byte-append line editor; ANSI CSI sequences
`ESC [ params final` are single zero-width tokens; finals `D`/`C` move the
cursor left/right by the numeric parameter (default 1) bounded by
`[0, len]`; other CSI tokens are inserted literally; `\b`/DEL delete the
character left of the cursor; `\r` only resets the display-column model;
all other bytes insert at the cursor.  The echo bytes returned by `write`
and `clear` are display-only details; they are modelled abstractly (no
claim in this development inspects them). -/

/-- A buffer item: a plain byte, or an atomic CSI escape sequence stored
with its full bytes (`ESC [ … final`). -/
inductive BufItem where
  | plain (b : Nat)
  | csi (seq : BStr)
  deriving DecidableEq, Repr

/-- Modelled from the spec (§3, §4.1): ordered items, a cursor index, a
color, a terminal-width hint and a prompt-length offset. -/
structure ShellBuffer where
  items : List BufItem
  cursor : Nat
  color : BStr
  termWidth : Nat
  promptLen : Int
  deriving DecidableEq, Repr

/-- `NewShellBuffer`: created empty. -/
def mkShellBuffer : ShellBuffer :=
  { items := [], cursor := 0, color := [], termWidth := 0, promptLen := 0 }

/-- Split the bytes following `ESC [` into parameter bytes, the final byte
(in `0x40..0x7e`) and the remainder; `none` when no final byte occurs. -/
def csiSplit : BStr → Option (BStr × Nat × BStr)
  | [] => none
  | b :: rest =>
    if 64 ≤ b && b ≤ 126 then some ([], b, rest)
    else match csiSplit rest with
      | none => none
      | some (ps, fin, r) => some (b :: ps, fin, r)

/-- Numeric parameter of a CSI cursor move: leading digits, default 1. -/
def csiParam (ps : BStr) : Nat :=
  let ds := ps.takeWhile isDigitByte
  if ds.isEmpty then 1 else digitsToNat ds

/-- Insert one item at the cursor position. -/
def sbInsertAt (items : List BufItem) (cursor : Nat) (it : BufItem) : List BufItem :=
  items.take cursor ++ [it] ++ items.drop cursor

/-- Modelled from the spec (§4.1 `write` behavior); fuel-driven scan over
the input bytes (fuel is the input length, each step consumes at least one
byte). -/
def sbWriteGo : Nat → ShellBuffer → BStr → ShellBuffer
  | _, buf, [] => buf
  | 0, buf, _ => buf
  | fuel + 1, buf, b :: rest =>
    if b = 27 then
      match rest with
      | 91 :: rest1 =>
        match csiSplit rest1 with
        | some (ps, fin, rest2) =>
          if fin = 68 then -- 'D', cursor left
            sbWriteGo fuel { buf with cursor := buf.cursor - csiParam ps } rest2
          else if fin = 67 then -- 'C', cursor right
            sbWriteGo fuel
              { buf with cursor := min (buf.cursor + csiParam ps) buf.items.length } rest2
          else if fin = 65 || fin = 66 then -- 'A'/'B': no effect on a line buffer
            sbWriteGo fuel buf rest2
          else -- other CSI tokens are inserted literally, zero display width
            sbWriteGo fuel
              { buf with items := sbInsertAt buf.items buf.cursor (.csi ([27, 91] ++ ps ++ [fin])),
                         cursor := buf.cursor + 1 } rest2
        | none => -- unterminated CSI: treat the ESC as a plain byte
          sbWriteGo fuel
            { buf with items := sbInsertAt buf.items buf.cursor (.plain b),
                       cursor := buf.cursor + 1 } rest
      | _ =>
        sbWriteGo fuel
          { buf with items := sbInsertAt buf.items buf.cursor (.plain b),
                     cursor := buf.cursor + 1 } rest
    else if b = 8 || b = 127 then -- backspace / DEL
      if buf.cursor = 0 then sbWriteGo fuel buf rest
      else
        sbWriteGo fuel
          { buf with items := buf.items.eraseIdx (buf.cursor - 1),
                     cursor := buf.cursor - 1 } rest
    else if b = 13 then -- carriage return: display model only, buffer unchanged
      sbWriteGo fuel buf rest
    else
      sbWriteGo fuel
        { buf with items := sbInsertAt buf.items buf.cursor (.plain b),
                   cursor := buf.cursor + 1 } rest

/-- `ShellBuffer.Write`, buffer-state part. -/
def sbWriteBuf (buf : ShellBuffer) (input : BStr) : ShellBuffer :=
  sbWriteGo input.length buf input

/-- Echo bytes returned by `write`.  Modelled from the spec abstractly:
the spec only requires that they re-render the line correctly; for the
append-at-end case they are the input bytes themselves.  No claim in this
development inspects these bytes. -/
def sbWriteEcho (_buf : ShellBuffer) (input : BStr) : BStr := input

/-- `ShellBuffer.Write`: returns the new buffer and the echo bytes. -/
def sbWrite (buf : ShellBuffer) (input : BStr) : ShellBuffer × BStr :=
  (sbWriteBuf buf input, sbWriteEcho buf input)

/-- `ShellBuffer.Clear`, buffer-state part: logically empty. -/
def sbClearBuf (buf : ShellBuffer) : ShellBuffer :=
  { buf with items := [], cursor := 0 }

/-- Erase bytes returned by `clear`.  Modelled from the spec abstractly
(backspace-space-backspace per plain item); display-only, inspected by no
claim. -/
def sbClearEcho (buf : ShellBuffer) : BStr :=
  (buf.items.map (fun _ => [8, 32, 8])).flatten

/-- `ShellBuffer.Size`: byte count of rendered content, excluding ANSI CSI
bytes. -/
def sbSize (buf : ShellBuffer) : Nat :=
  (buf.items.filter (fun it => match it with | .plain _ => true | .csi _ => false)).length

/-- `ShellBuffer.String`: the rendered bytes including embedded ANSI. -/
def sbString (buf : ShellBuffer) : BStr :=
  (buf.items.map (fun it => match it with | .plain b => [b] | .csi s => s)).flatten

def sbSetColor (buf : ShellBuffer) (c : BStr) : ShellBuffer := { buf with color := c }

def sbSetTermWidth (buf : ShellBuffer) (w : Nat) : ShellBuffer := { buf with termWidth := w }

def sbSetPromptLen (buf : ShellBuffer) (n : Int) : ShellBuffer := { buf with promptLen := n }

/-! ## AnsiScanner and sanitizer (modelled from the spec) -/

/-- Bytes after the last ESC (27) in the input, `none` when no ESC. -/
def afterLastEsc (data : BStr) : Option BStr :=
  let r := data.reverse.takeWhile (fun b => b ≠ 27)
  if r.length = data.length then none else some r.reverse

/-- Modelled from the spec (§4.2): `incompleteAnsiSequence` is true iff
the byte slice ends mid-CSI — an `ESC` or `ESC [` with no final byte
(`0x40..0x7e`) yet. -/
def incompleteAnsiSequence (data : BStr) : Bool :=
  match afterLastEsc data with
  | none => false
  | some [] => true
  | some (91 :: ps) => ps.all (fun b => !(64 ≤ b && b ≤ 126))
  | some _ => false

/-- Modelled from the spec (§4.4): `sanitizeTTYString` keeps
printable-plus-whitespace bytes.  ASCII printables and tab/newline/CR are
kept, control bytes (including ESC) are dropped; bytes ≥ 128 (multi-byte
UTF-8 content) are kept. -/
def sanitizeTTYString (s : BStr) : BStr :=
  s.filter (fun b => (32 ≤ b && b ≤ 126) || b = 9 || b = 10 || b = 13 || 128 ≤ b)

/-! ## History store (`shell.go` lines 113-247) -/

/-- Cache of one tokenization of a block's content (`Tokenization`). -/
structure Tokenization where
  inputLength : Nat
  numTokens : Nat
  data : BStr
  deriving DecidableEq, Repr

/-- `HistoryBuffer`: content type, content, and tokenization cache keyed
by encoder name (the Go map is modelled as an association list). -/
structure HistoryBuffer where
  type : Nat
  content : ShellBuffer
  tokenizations : List (String × Tokenization)
  deriving DecidableEq, Repr

/-- History block kinds (`historyTypePrompt` etc., Go iota constants). -/
def historyTypePrompt : Nat := 0
def historyTypeShellInput : Nat := 1
def historyTypeShellOutput : Nat := 2
def historyTypeLLMOutput : Nat := 3

/-- `HistoryBuffer.SetTokenization`. -/
def hbSetTokenization (hb : HistoryBuffer) (encoding : String) (inputLength numTokens : Nat)
    (data : BStr) : HistoryBuffer :=
  { hb with tokenizations :=
      (encoding, { inputLength := inputLength, numTokens := numTokens, data := data }) ::
        hb.tokenizations.filter (fun p => p.1 ≠ encoding) }

/-- `HistoryBuffer.GetTokenization`: the cached entry is returned only
when its recorded input length equals the queried length. -/
def hbGetTokenization (hb : HistoryBuffer) (encoding : String) (length : Nat) :
    Option (BStr × Nat) :=
  match hb.tokenizations.lookup encoding with
  | none => none
  | some t => if t.inputLength ≠ length then none else some (t.data, t.numTokens)

/-- `ShellHistory`: ordered blocks, oldest first. -/
structure ShellHistory where
  blocks : List HistoryBuffer
  deriving DecidableEq, Repr

/-- `NewShellHistory`. -/
def mkShellHistory : ShellHistory := { blocks := [] }

/-- `ShellHistory.add`: create a fresh block whose content is a new
buffer with the data written into it. -/
def shAdd (h : ShellHistory) (historyType : Nat) (block : BStr) : ShellHistory :=
  { blocks := h.blocks ++
      [{ type := historyType, content := sbWriteBuf mkShellBuffer block, tokenizations := [] }] }

/-- `ShellHistory.Append` (`shell.go` 178-200): empty data is a no-op; a
matching last-block kind extends that block's content; otherwise a new
block is added. -/
def shAppend (h : ShellHistory) (historyType : Nat) (data : BStr) : ShellHistory :=
  if data.length = 0 then h
  else
    match h.blocks.getLast? with
    | some lastBlock =>
      if lastBlock.type = historyType then
        { blocks := h.blocks.dropLast ++
            [{ lastBlock with content := sbWriteBuf lastBlock.content data }] }
      else shAdd h historyType data
    | none => shAdd h historyType data

/-- `util.HistoryBlock`: the by-value snapshot handed to the assembler. -/
structure OutBlock where
  type : Nat
  content : BStr
  deriving DecidableEq, Repr

/-- The per-block processing of `GetLastNBytes`: sanitize, then cut to
`truncateLength` bytes. -/
def glnbContent (truncateLength : Nat) (hb : HistoryBuffer) : BStr :=
  (sanitizeTTYString (sbString hb.content)).take truncateLength

/-- The newest-first walk of `GetLastNBytes` (`shell.go` 212-226): the
input list is the history reversed (newest first); stop when the budget is
exhausted or the next block's content does not fit. -/
def glnbGo (truncateLength : Nat) : List HistoryBuffer → Nat → List OutBlock
  | [], _ => []
  | hb :: rest, numBytes =>
    if numBytes = 0 then []
    else
      let content := glnbContent truncateLength hb
      if content.length > numBytes then []
      else { type := hb.type, content := content } ::
        glnbGo truncateLength rest (numBytes - content.length)

/-- `ShellHistory.GetLastNBytes` (`shell.go` 206-235): newest-first walk,
then reverse to oldest-first. -/
def shGetLastNBytes (h : ShellHistory) (numBytes truncateLength : Nat) : List OutBlock :=
  (glnbGo truncateLength h.blocks.reverse numBytes).reverse

/-! ## PS1 sentinel protocol (`shell.go` 41-52, 415-457) -/

/-- `PROMPT_PREFIX` = `"\033Q"`. -/
def promptSentinelPre : BStr := [27, 81]

/-- `PROMPT_SUFFIX` = `"\033R"`. -/
def promptSentinelSuf : BStr := [27, 82]

/-- `EMOJI_DEFAULT` = `"🐠"` (UTF-8 bytes). -/
def emojiDefault : BStr := strB "🐠"

/-- Leftmost non-overlapping scan for the trailing-sentinel pattern
`pre ++ [0-9]+ ++ ESC R`, byte-level surrogate for Go's
`FindAllStringSubmatch` plus `ReplaceAllString` on `ps1Regex` /
`ps1FullRegex`.  `pre` is the fixed pattern head (`"🐠 "` or `" "`),
`repl` the replacement.  Returns the digit groups of the matches in order,
and the input with each match replaced by `repl`.  Fuel decreases by one
per step; each step consumes at least one byte, so fuel = input length
suffices. -/
def ps1Scan (pre repl : BStr) : Nat → BStr → List BStr × BStr
  | _, [] => ([], [])
  | 0, s => ([], s)
  | fuel + 1, c :: cs =>
    let s := c :: cs
    if pre.isPrefixOf s then
      let rest0 := s.drop pre.length
      let ds := rest0.takeWhile isDigitByte
      let rest1 := rest0.dropWhile isDigitByte
      match ds, rest1 with
      | _ :: _, 27 :: 82 :: rest2 =>
        let (ms, out) := ps1Scan pre repl fuel rest2
        (ds :: ms, repl ++ out)
      | _, _ =>
        let (ms, out) := ps1Scan pre repl fuel cs
        (ms, c :: out)
    else
      let (ms, out) := ps1Scan pre repl fuel cs
      (ms, c :: out)

/-- All matches of the trailing-sentinel pattern together with the
replaced string. -/
def ps1FindAll (pre repl : BStr) (s : BStr) : List BStr × BStr :=
  ps1Scan pre repl s.length s

/-- Single-pass leftmost removal of every occurrence of `pat`, as in
`strings.ReplaceAll(s, pat, "")`. -/
def removeAllSub (pat : BStr) : Nat → BStr → BStr
  | _, [] => []
  | 0, s => s
  | fuel + 1, c :: cs =>
    let s := c :: cs
    if pat.isPrefixOf s ∧ pat ≠ [] then removeAllSub pat fuel (s.drop pat.length)
    else c :: removeAllSub pat fuel cs

/-- `ParsePS1` (`shell.go` 415-440).  `pre` is the fixed head of the
compiled regex (`"🐠 "` for `ps1FullRegex`, `" "` for `ps1Regex`).
Returns `(lastStatus, prompts, cleaned)`. -/
def parsePS1 (data : BStr) (pre : BStr) (currIcon : BStr) : Nat × Nat × BStr :=
  let (groups, replaced) := ps1FindAll pre currIcon data
  if groups.length = 0 then (0, 0, data)
  else
    let lastStatus := groups.foldl (fun _ ds => digitsToNat ds) 0
    let cleaned := removeAllSub promptSentinelPre replaced.length replaced
    (lastStatus, groups.length, cleaned)

/-- `ShellState.ParsePS1` (`shell.go` 442-457): the regex and icon depend
on `ShellLeavePromptAlone`. -/
def stateParsePS1 (shellLeavePromptAlone : Bool) (data : BStr) : Nat × Nat × BStr :=
  if shellLeavePromptAlone then parsePS1 data [32] []
  else parsePS1 data (emojiDefault ++ [32]) emojiDefault

/-- The fixed head of `ZSH_CLEAR_REGEX`
(`"\x1b[1m\x1b[3m%\x1b[23m\x1b[1m\x1b[0m"`). -/
def zshClearHead : BStr := strB "\x1b[1m\x1b[3m%\x1b[23m\x1b[1m\x1b[0m"

/-- Byte-level surrogate for `ZSH_CLEAR_REGEX.MatchString` (anchored):
the fixed head, one or more spaces, then `\x0d \x0d`. -/
def zshClearMatch (data : BStr) : Bool :=
  if zshClearHead.isPrefixOf data then
    let rest := data.drop zshClearHead.length
    let sp := rest.takeWhile (fun b => b = 32)
    decide (sp.length ≥ 1) && [13, 32, 13].isPrefixOf (rest.dropWhile (fun b => b = 32))
  else false

/-- `ShellState.FilterChildOut` (`shell.go` 463-469). -/
def filterChildOut (data : BStr) : Bool :=
  decide (data.length > 0) && (strB "\x1b[1m").isPrefixOf data && zshClearMatch data

/-! ## Tokenizer interface and chat assembly (`shell.go` 917-1043,
1146-1158)

The tokenizer is an external collaborator (spec §1): a byte-pair encoder
with `encode`/`decode`/`name`.  It is modelled as an abstract structure
over byte strings. -/

/-- External tokenizer interface (`tiktoken.Tiktoken` as consumed). -/
structure Encoder where
  encode : BStr → List Nat
  decode : List Nat → BStr
  encoderName : String

/-- `countAndTruncate` (`shell.go` 1146-1158): count tokens; when the
count is ≥ `maxTokens`, truncate the token list and re-decode.  Returns
(token count, data, truncated?). -/
def countAndTruncate (data : BStr) (encoder : Encoder) (maxTokens : Nat) :
    Nat × BStr × Bool :=
  let tokens := encoder.encode data
  if tokens.length ≥ maxTokens then
    ((tokens.take maxTokens).length, encoder.decode (tokens.take maxTokens), true)
  else (tokens.length, data, false)

/-- Modelled from the spec (§4.5 role mapping): `ShellHistoryTypeToRole`
is not part of the provided tree.  UserPrompt → "user", ShellInput →
"user", LLMOutput → "assistant"; ShellOutput has no role (it is
filtered). -/
def shellHistoryTypeToRole (historyType : Nat) : BStr :=
  if historyType = historyTypePrompt then strB "user"
  else if historyType = historyTypeShellInput then strB "user"
  else if historyType = historyTypeLLMOutput then strB "assistant"
  else []

/-- The cache-miss computation of `getHistoryBlocksByTokens`
(`shell.go` 1015-1023): hard-cap the content string at
`maxHistoryBlockTokens * 4` bytes when the content *size* exceeds it,
sanitize, then `countAndTruncate` to `maxHistoryBlockTokens` tokens.
Returns (content, contentTokens). -/
def computeTokenization (encoder : Encoder) (maxHistoryBlockTokens : Nat)
    (content : ShellBuffer) : BStr × Nat :=
  let contentLen := sbSize content
  let contentStr := sbString content
  let ceiling := maxHistoryBlockTokens * 4
  let contentStr := if contentLen > ceiling then contentStr.take ceiling else contentStr
  let historyContent := sanitizeTTYString contentStr
  let r := countAndTruncate historyContent encoder maxHistoryBlockTokens
  (r.2.1, r.1)

/-- One block's visit in `getHistoryBlocksByTokens`: consult the cache,
recompute and store on a miss.  Returns (content, contentTokens, updated
block). -/
def visitBlock (encoder : Encoder) (maxHistoryBlockTokens : Nat) (hb : HistoryBuffer) :
    BStr × Nat × HistoryBuffer :=
  let contentLen := sbSize hb.content
  match hbGetTokenization hb encoder.encoderName contentLen with
  | some (content, contentTokens) => (content, contentTokens, hb)
  | none =>
    let r := computeTokenization encoder maxHistoryBlockTokens hb.content
    (r.1, r.2, hbSetTokenization hb encoder.encoderName contentLen r.2 r.1)

/-- The newest-first walk of `getHistoryBlocksByTokens` (`shell.go`
993-1040).  The input list is the history reversed (newest first);
`usedTokens` is the running total.  Returns the accepted blocks in
oldest-first order, the final `usedTokens`, and the visited list (still
newest first) with its tokenization caches updated.  Rejecting a block
stops the walk (the Go callback returns `false`), and the rejected
block's cache write has already happened. -/
def ghbtGo (encoder : Encoder) (maxHistoryBlockTokens maxTokens tokensPerMessage : Nat) :
    List HistoryBuffer → Nat → List OutBlock × Nat × List HistoryBuffer
  | [], usedTokens => ([], usedTokens, [])
  | hb :: rest, usedTokens =>
    if hb.type = historyTypeShellOutput then
      let r := ghbtGo encoder maxHistoryBlockTokens maxTokens tokensPerMessage rest usedTokens
      (r.1, r.2.1, hb :: r.2.2)
    else if sbSize hb.content = 0 then
      let r := ghbtGo encoder maxHistoryBlockTokens maxTokens tokensPerMessage rest usedTokens
      (r.1, r.2.1, hb :: r.2.2)
    else
      let v := visitBlock encoder maxHistoryBlockTokens hb
      let msgTokens :=
        tokensPerMessage + (encoder.encode (shellHistoryTypeToRole hb.type)).length + v.2.1
      if usedTokens + msgTokens > maxTokens then ([], usedTokens, v.2.2 :: rest)
      else
        let r := ghbtGo encoder maxHistoryBlockTokens maxTokens tokensPerMessage rest
          (usedTokens + msgTokens)
        (r.1 ++ [{ type := hb.type, content := v.1 }], r.2.1, v.2.2 :: r.2.2)

/-- `getHistoryBlocksByTokens` (`shell.go` 982-1043): iterate the history
newest first, filter ShellOutput and empty blocks, accumulate until the
budget would be exceeded.  Returns the blocks (oldest first), the token
total, and the history with updated caches (the Go code updates the
shared history in place). -/
def getHistoryBlocksByTokens (history : ShellHistory) (encoder : Encoder)
    (maxHistoryBlockTokens maxTokens tokensPerMessage : Nat) :
    List OutBlock × Nat × ShellHistory :=
  let r := ghbtGo encoder maxHistoryBlockTokens maxTokens tokensPerMessage
    history.blocks.reverse 0
  (r.1, r.2.1, { blocks := r.2.2.reverse })

/-- `assembleChat` (`shell.go` 930-979).  `tokensPerMessage` stands for
`NumTokensPerMessageForModel(model)`, a model-dependent constant whose
source is not part of the provided tree (spec §4.5 step 3).  Returns the
possibly-truncated prompt, the history blocks, and the updated history,
or an error when prompt + system message alone exceed `maxTokens`. -/
def assembleChat (prompt sysMsg : BStr) (history : ShellHistory)
    (tokensPerMessage : Nat) (encoder : Encoder)
    (maxPromptTokens maxHistoryBlockTokens maxTokens : Nat) :
    Except String (BStr × List OutBlock × ShellHistory) :=
  let usedTokens := 3
  let r := countAndTruncate prompt encoder maxPromptTokens
  let numPromptTokens := r.1
  let prompt := r.2.1
  let usedTokens := usedTokens + numPromptTokens
  let sysMsgTokens := (encoder.encode sysMsg).length
  let usedTokens := usedTokens + sysMsgTokens + tokensPerMessage
  if usedTokens > maxTokens then .error "System message too long"
  else
    let h := getHistoryBlocksByTokens history encoder maxHistoryBlockTokens
      (maxTokens - usedTokens) tokensPerMessage
    .ok (prompt, h.1, h.2.2)

/-! ## Multiplexer state machine (`shell.go` 263-911) -/

/-- Shell-state constants (Go iota, `shell.go` 263-268). -/
def stateNormal : Nat := 0
def stateShell : Nat := 1
def statePrompting : Nat := 2
def statePromptResponse : Nat := 3

/-- `ShellColorScheme` (`shell.go` 280-286). -/
structure ShellColorScheme where
  prompt : BStr
  error : BStr
  command : BStr
  answer : BStr
  answerHighlight : BStr
  deriving DecidableEq, Repr

/-- `DarkShellColorScheme` (`shell.go` 55-61). -/
def darkShellColorScheme : ShellColorScheme :=
  { prompt := strB "\x1b[38;5;154m", command := strB "\x1b[0m",
    answer := strB "\x1b[38;5;221m", answerHighlight := strB "\x1b[38;5;204m",
    error := strB "\x1b[38;5;196m" }

/-- `LightShellColorScheme` (`shell.go` 63-69). -/
def lightShellColorScheme : ShellColorScheme :=
  { prompt := strB "\x1b[38;5;28m", command := strB "\x1b[0m",
    answer := strB "\x1b[38;5;18m", answerHighlight := strB "\x1b[38;5;6m",
    error := strB "\x1b[38;5;196m" }

/-- `ESC_CUP` = `"\x1b[6n"`, the DSR cursor-position request. -/
def escCup : BStr := strB "\x1b[6n"

/-- The Ctrl-L reply: CSI `2J` (clear screen) + CSI `H` (home). -/
def clearScreenHome : BStr := strB "\x1b[2J\x1b[H"

/-- The mutable state owned by the multiplexer (`ShellState`,
`shell.go` 289-319, simplified members only).  `cursorRow`/`cursorCol`
model the next DSR reply available on `CursorPosChan`;
`childOutBuffer` is the `Mux` loop's local buffer of child output held
back during `PromptResponse`. -/
structure MuxState where
  state : Nat
  promptSuffixCounter : Nat
  history : ShellHistory
  prompt : ShellBuffer
  command : ShellBuffer
  promptResponseCancel : Bool
  terminalWidth : Nat
  color : ShellColorScheme
  parentInBuffer : BStr
  childOutBuffer : BStr
  cursorRow : Nat
  cursorCol : Nat
  shellLeavePromptAlone : Bool
  deriving DecidableEq, Repr

/-- Result of one `ParentInput` dispatch: new state, bytes written to the
child's stdin, bytes written to the parent's stdout, and the leftover
input (`none` models a Go `nil` return). -/
structure PIOut where
  st : MuxState
  childOut : BStr
  parentOut : BStr
  leftover : Option BStr
  deriving Repr

/-- `ShellState.ParentInput` (`shell.go` 720-911).  The `Prompting`
carriage-return branch includes the state effects of `SendPrompt`
(`shell.go` 1046-1088) on its success path: enter `PromptResponse`, set
the cancel handle, append the prompt buffer's content to history as a
UserPrompt block, and clear the prompt buffer (the dispatched completion
request itself is external I/O). -/
def parentInput (st : MuxState) (data : BStr) : PIOut :=
  match data with
  | [] => { st := st, childOut := [], parentOut := [], leftover := none }
  | d0 :: _ =>
    let hasCarriageReturn := data.contains 13
    if st.state = statePromptResponse then
      if d0 = 3 || data.getLast! = 3 then
        let st := { st with promptResponseCancel := false, state := stateNormal }
        if d0 = 3 then
          { st := st, childOut := [], parentOut := [], leftover := some (data.drop 1) }
        else
          { st := st, childOut := [], parentOut := [], leftover := some data.dropLast }
      else
        { st := st, childOut := [], parentOut := [], leftover := some data }
    else if st.state = stateNormal then
      if d0 = 3 then
        { st := { st with command := sbClearBuf st.command, prompt := sbClearBuf st.prompt },
          childOut := [3], parentOut := [], leftover := some (data.drop 1) }
      else if d0 = 12 then
        { st := { st with command := sbClearBuf st.command, prompt := sbClearBuf st.prompt },
          childOut := [13], parentOut := clearScreenHome, leftover := some (data.drop 1) }
      else if goIsUpperByte d0 then
        let p1 := sbSetColor (sbWriteBuf (sbClearBuf st.prompt) data) st.color.prompt
        let p2 := sbSetPromptLen p1 ((st.cursorCol : Int) - 1 - (sbSize p1 : Int))
        { st := { st with state := statePrompting, prompt := p2 },
          childOut := [],
          parentOut := st.color.prompt ++ data ++ escCup,
          leftover := some (data.drop 1) }
      else if d0 = 9 then
        { st := st, childOut := [9], parentOut := [], leftover := some (data.drop 1) }
      else if d0 = 13 then
        { st := st, childOut := data, parentOut := [], leftover := some (data.drop 1) }
      else
        let cmd := sbWriteBuf mkShellBuffer data
        let st' :=
          if sbSize cmd > 0 then { st with command := cmd, state := stateShell }
          else { st with command := cmd }
        { st := st', childOut := data, parentOut := st.color.command, leftover := none }
    else if st.state = statePrompting then
      if hasCarriageReturn then
        let index := data.indexOf 13
        let toAdd := data.take index
        let (p1, echo) := sbWrite st.prompt toAdd
        { st := { st with
            state := statePromptResponse,
            promptResponseCancel := true,
            history := shAppend st.history historyTypePrompt (sbString p1),
            prompt := sbClearBuf p1 },
          childOut := [], parentOut := echo ++ [10, 13],
          leftover := some (data.drop (index + 1)) }
      else if d0 = 9 then
        { st := st, childOut := [], parentOut := data, leftover := some (data.drop 1) }
      else if d0 = 3 then
        { st := { st with promptResponseCancel := false, prompt := sbClearBuf st.prompt,
                          state := stateNormal },
          childOut := [], parentOut := sbClearEcho st.prompt ++ st.color.command,
          leftover := some (data.drop 1) }
      else if d0 = 12 then
        { st := st, childOut := [],
          parentOut := clearScreenHome ++ st.color.prompt ++ sbString st.prompt,
          leftover := some (data.drop 1) }
      else
        let (p1, echo) := sbWrite st.prompt data
        if sbSize p1 = 0 then
          { st := { st with prompt := p1, state := stateNormal },
            childOut := [], parentOut := echo ++ st.color.command, leftover := none }
        else
          { st := { st with prompt := p1 }, childOut := [], parentOut := echo, leftover := none }
    else if st.state = stateShell then
      if hasCarriageReturn then
        let index := data.indexOf 13
        { st := { st with state := stateNormal,
                          history := shAppend st.history historyTypeShellInput
                            (sbString st.command),
                          command := mkShellBuffer },
          childOut := data.take (index + 1), parentOut := [],
          leftover := some (data.drop (index + 1)) }
      else if d0 = 3 then
        { st := { st with command := sbClearBuf st.command, state := stateNormal },
          childOut := [3], parentOut := [], leftover := some (data.drop 1) }
      else if d0 = 9 then
        { st := st, childOut := [9], parentOut := [], leftover := some (data.drop 1) }
      else
        let cmd := sbWriteBuf st.command data
        let st' :=
          if sbSize cmd = 0 then { st with command := cmd, state := stateNormal }
          else { st with command := cmd }
        { st := st', childOut := data, parentOut := [], leftover := none }
    else -- Go panics on an unknown state; unreachable for states 0-3
      { st := st, childOut := [], parentOut := [], leftover := none }

/-- Result of a whole event dispatch: new state plus the bytes written to
the child and to the parent. -/
structure LoopOut where
  st : MuxState
  childOut : BStr
  parentOut : BStr
  deriving Repr

/-- The retry loop inside `ParentInputLoop` (`shell.go` 704-717): stop on
`nil`/empty leftover; when nothing was consumed, stash the leftover in
`parentInBuffer`; otherwise continue on the leftover.  Fuel is the data
length (each continuing iteration strictly shrinks the data). -/
def parentInputLoopGo : Nat → MuxState → BStr → BStr → BStr → LoopOut
  | 0, st, _, co, po => { st := st, childOut := co, parentOut := po }
  | fuel + 1, st, data, co, po =>
    let r := parentInput st data
    let co := co ++ r.childOut
    let po := po ++ r.parentOut
    match r.leftover with
    | none => { st := r.st, childOut := co, parentOut := po }
    | some l =>
      if l.length = 0 then { st := r.st, childOut := co, parentOut := po }
      else if l.length = data.length then
        { st := { r.st with parentInBuffer := r.st.parentInBuffer ++ l },
          childOut := co, parentOut := po }
      else parentInputLoopGo fuel r.st l co po

/-- `ShellState.ParentInputLoop` (`shell.go` 682-717): prepend the cached
`parentInBuffer`, return on empty data, re-buffer everything when the
data ends mid-ANSI-sequence, else run the dispatch loop. -/
def parentInputLoop (st : MuxState) (data : BStr) : LoopOut :=
  let data := st.parentInBuffer ++ data
  let st := { st with parentInBuffer := [] }
  if data.length = 0 then { st := st, childOut := [], parentOut := [] }
  else if incompleteAnsiSequence data then
    { st := { st with parentInBuffer := data }, childOut := [], parentOut := [] }
  else parentInputLoopGo data.length st data [] []

/-- Decimal rendering of a number, for the `fmt.Fprintf` verbs. -/
def natDecimal (n : Nat) : BStr := (Nat.toDigits 10 n).map Char.toNat

/-- The events the `Mux` select loop can receive (`shell.go` 573-679),
each carrying the received value. -/
inductive MuxEvent where
  | printError (e : BStr)
  | cursorPos (row col : Nat)
  | sigwinch (newWidth : Nat)
  | promptOutput (completion : BStr)
  | childOutMsg (data : BStr)
  | parentInMsg (data : BStr)

/-- One iteration of the `Mux` select loop (`shell.go` 573-679),
dispatching on the received event.  The style writer's width update on
SIGWINCH is external I/O and has no counterpart in this state. -/
def muxStep (st : MuxState) (ev : MuxEvent) : LoopOut :=
  match ev with
  | .printError e =>
    { st := { st with history := shAppend st.history historyTypeShellOutput e,
                      state := stateNormal },
      childOut := [10], parentOut := st.color.error ++ e }
  | .cursorPos row col =>
    { st := st,
      childOut := strB "\x1b[" ++ natDecimal row ++ [59] ++ natDecimal col ++ [82],
      parentOut := [] }
  | .sigwinch w =>
    { st := { st with terminalWidth := w, prompt := sbSetTermWidth st.prompt w,
                      command := sbSetTermWidth st.command w },
      childOut := [], parentOut := [] }
  | .promptOutput completion =>
    let st :=
      if completion.length ≠ 0 then
        { st with history := shAppend st.history historyTypeLLMOutput completion }
      else st
    let flushed := st.childOutBuffer
    let st :=
      if flushed.length > 0 then
        { st with history := shAppend st.history historyTypeShellOutput flushed,
                  childOutBuffer := [] }
      else st
    let st := { st with state := stateNormal }
    let r := parentInputLoop st []
    { st := r.st, childOut := [10] ++ r.childOut, parentOut := flushed ++ r.parentOut }
  | .childOutMsg data =>
    let parsed := stateParsePS1 st.shellLeavePromptAlone data
    let childOutStr := parsed.2.2
    let st := { st with promptSuffixCounter := st.promptSuffixCounter + parsed.2.1 }
    if st.state = statePromptResponse then
      { st := { st with childOutBuffer := st.childOutBuffer ++ childOutStr },
        childOut := [], parentOut := [] }
    else
      let st :=
        if st.state ≠ stateShell ∧ filterChildOut data = false then
          { st with history := shAppend st.history historyTypeShellOutput childOutStr }
        else st
      { st := st, childOut := [], parentOut := childOutStr }
  | .parentInMsg data => parentInputLoop st data

/-- The initial multiplexer state built by `ShellMultiplexer`
(`shell.go` 521-548) with terminal width 80, the dark color scheme, PS1
modification enabled, and `(1, 1)` as the pending DSR reply. -/
def initState : MuxState :=
  { state := stateNormal,
    promptSuffixCounter := 0,
    history := mkShellHistory,
    prompt := sbSetColor (sbSetTermWidth mkShellBuffer 80) darkShellColorScheme.prompt,
    command := mkShellBuffer,
    promptResponseCancel := false,
    terminalWidth := 80,
    color := darkShellColorScheme,
    parentInBuffer := [],
    childOutBuffer := [],
    cursorRow := 1,
    cursorCol := 1,
    shellLeavePromptAlone := false }

/-- Fold a sequence of parent-input messages through the multiplexer,
concatenating the emitted child and parent bytes. -/
def runParentChunks (st : MuxState) (chunks : List BStr) : LoopOut :=
  chunks.foldl
    (fun acc d =>
      let r := muxStep acc.st (.parentInMsg d)
      { st := r.st, childOut := acc.childOut ++ r.childOut,
        parentOut := acc.parentOut ++ r.parentOut })
    { st := st, childOut := [], parentOut := [] }

/-! ## Helper definitions for the claims -/

/-- A concrete identity tokenizer: every byte is one token.  Used to
instantiate theorems quantified over encoders. -/
def idEncoder : Encoder :=
  { encode := fun s => s, decode := fun t => t, encoderName := "id" }

/-- Replay a sequence of `Append` calls on a fresh `ShellHistory`. -/
def applyAppends (ops : List (Nat × BStr)) : ShellHistory :=
  ops.foldl (fun h op => shAppend h op.1 op.2) mkShellHistory

/-- The adjacency relation of the history invariant: differing kinds. -/
def kindsDiffer (a b : HistoryBuffer) : Prop := a.type ≠ b.type

lemma chain'_shAppend (h : ShellHistory) (k : Nat) (d : BStr)
    (hc : List.Chain' kindsDiffer h.blocks) :
    List.Chain' kindsDiffer (shAppend h k d).blocks := by
  unfold shAppend
  split
  · exact hc
  · match he : h.blocks.getLast? with
    | none =>
      have hnil : h.blocks = [] := List.getLast?_eq_none_iff.mp he
      simp [shAdd, hnil]
    | some lastBlock =>
      simp only
      split
      · -- same kind: only the last block's content changes
        have hne : h.blocks ≠ [] := by
          intro hnil
          rw [hnil] at he
          simp at he
        have hdecomp : h.blocks.dropLast ++ [h.blocks.getLast hne] = h.blocks :=
          List.dropLast_append_getLast hne
        have hlast : lastBlock = h.blocks.getLast hne := by
          have := List.getLast?_eq_getLast h.blocks hne
          rw [he] at this
          exact Option.some_injective _ this
        rw [← hdecomp] at hc
        rw [List.chain'_append] at hc ⊢
        refine ⟨hc.1, List.chain'_singleton _, ?_⟩
        intro x hx y hy
        have hrel := hc.2.2 x hx (h.blocks.getLast hne) (by simp)
        simp only [List.head?] at hy
        cases hy
        exact fun hcontra => hrel (by simpa [kindsDiffer, ← hlast] using hcontra)
      · -- different kind: a new block is appended at the end
        rename_i hty
        rw [shAdd, List.chain'_append]
        refine ⟨hc, List.chain'_singleton _, ?_⟩
        intro x hx y hy
        rw [he] at hx
        simp only [Option.mem_def, Option.some.injEq] at hx
        simp only [List.head?, Option.mem_def, Option.some.injEq] at hy
        subst hx
        subst hy
        simpa [kindsDiffer] using hty

/-- C6: for every sequence of `Append` calls on a fresh `ShellHistory`,
no two adjacent blocks share a kind; an `Append` whose kind matches the
last block extends that block's content in place; and an `Append` with
empty data leaves the history completely unchanged. -/
theorem shellHistory_append_invariant :
    (∀ ops : List (Nat × BStr), List.Chain' kindsDiffer (applyAppends ops).blocks)
    ∧ (∀ (h : ShellHistory) (k : Nat), shAppend h k [] = h)
    ∧ (∀ (h : ShellHistory) (k : Nat) (d : BStr) (lastBlock : HistoryBuffer),
        d ≠ [] → h.blocks.getLast? = some lastBlock → lastBlock.type = k →
        (shAppend h k d).blocks =
          h.blocks.dropLast ++ [{ lastBlock with content := sbWriteBuf lastBlock.content d }]) := by
  refine ⟨?_, ?_, ?_⟩
  · intro ops
    suffices hgen : ∀ (l : List (Nat × BStr)) (h : ShellHistory),
        List.Chain' kindsDiffer h.blocks →
        List.Chain' kindsDiffer (l.foldl (fun h op => shAppend h op.1 op.2) h).blocks by
      exact hgen ops mkShellHistory (by simp [mkShellHistory])
    intro l
    induction l with
    | nil => intro h hc; exact hc
    | cons op rest ih =>
      intro h hc
      exact ih (shAppend h op.1 op.2) (chain'_shAppend h op.1 op.2 hc)
  · intro h k
    simp [shAppend]
  · intro h k d lastBlock hd hlast hty
    have hlen : ¬ d.length = 0 := by simpa using hd
    simp [shAppend, hlen, hlast, hty]

/-- Closed instance of `shellHistory_append_invariant` discharging its
hypotheses on concrete inputs. -/
theorem shellHistory_append_invariant_witness :
    List.Chain' kindsDiffer (applyAppends [(0, [97]), (1, [98]), (1, [99])]).blocks
    ∧ shAppend (applyAppends [(0, [97])]) 0 [] = applyAppends [(0, [97])]
    ∧ (shAppend (applyAppends [(0, [97])]) 0 [98]).blocks =
        (applyAppends [(0, [97])]).blocks.dropLast ++
          [{ type := 0, content := sbWriteBuf (sbWriteBuf mkShellBuffer [97]) [98],
             tokenizations := [] }] :=
  ⟨shellHistory_append_invariant.1 _,
   shellHistory_append_invariant.2.1 _ _,
   shellHistory_append_invariant.2.2 (applyAppends [(0, [97])]) 0 [98]
     { type := 0, content := sbWriteBuf mkShellBuffer [97], tokenizations := [] }
     (by decide) (by decide) rfl⟩

/-- C7 (amended): `countAndTruncate` returns the input unchanged and
reports no truncation when the token count is strictly below
`maxTokens`; when the count is ≥ `maxTokens` (including exact equality)
it returns the re-decoding of the first `maxTokens` tokens and reports
truncation; the returned count never exceeds `maxTokens`. -/
theorem countAndTruncate_spec :
    ∀ (data : BStr) (encoder : Encoder) (maxTokens : Nat),
      ((encoder.encode data).length < maxTokens →
        countAndTruncate data encoder maxTokens = ((encoder.encode data).length, data, false))
      ∧ (maxTokens ≤ (encoder.encode data).length →
        countAndTruncate data encoder maxTokens =
          (maxTokens, encoder.decode ((encoder.encode data).take maxTokens), true))
      ∧ (countAndTruncate data encoder maxTokens).1 ≤ maxTokens := by
  intro data encoder maxTokens
  by_cases hge : (encoder.encode data).length ≥ maxTokens
  · refine ⟨fun hlt => absurd hge (by omega), fun _ => ?_, ?_⟩
    · simp [countAndTruncate, hge, List.length_take, Nat.min_eq_left hge]
    · simp [countAndTruncate, hge, List.length_take, Nat.min_eq_left hge]
  · refine ⟨fun _ => ?_, fun hle => absurd hle (by omega), ?_⟩
    · simp [countAndTruncate, hge]
    · simp only [countAndTruncate, if_neg hge]
      omega

/-- Counterexample to C7 as stated: at `[97]` with the identity encoder
and `maxPromptTokens = 1` the token count (1) does not exceed the
budget, yet `countAndTruncate` reports truncation (the code tests
`len(tokens) >= maxTokens`, not `>`). -/
theorem countAndTruncate_eq_boundary :
    (idEncoder.encode [97]).length ≤ 1 ∧ (countAndTruncate [97] idEncoder 1).2.2 = true := by
  decide

/-- Closed instance of `countAndTruncate_spec` discharging its
hypotheses on concrete inputs. -/
theorem countAndTruncate_spec_witness :
    (idEncoder.encode [97, 98]).length < 5
    ∧ countAndTruncate [97, 98] idEncoder 5 = ((idEncoder.encode [97, 98]).length, [97, 98], false)
    ∧ countAndTruncate [97, 98, 99] idEncoder 2 =
        (2, idEncoder.decode ((idEncoder.encode [97, 98, 99]).take 2), true) :=
  ⟨by decide,
   (countAndTruncate_spec [97, 98] idEncoder 5).1 (by decide),
   (countAndTruncate_spec [97, 98, 99] idEncoder 2).2.1 (by decide)⟩

/-- C5 (amended): when the bytes of `"ls -l\r"` reach the multiplexer as
six single-byte framed messages in Normal state, the child receives
exactly `"ls -l\r"`, the history gains exactly one ShellInput block with
content `"ls -l"`, and the state machine ends in Normal. -/
theorem plainCommand_bytewise_passthrough :
    (runParentChunks initState [[108], [115], [32], [45], [108], [13]]).childOut = strB "ls -l\r"
    ∧ (runParentChunks initState [[108], [115], [32], [45], [108], [13]]).st.history.blocks.map
        (fun b => (b.type, sbString b.content)) = [(historyTypeShellInput, strB "ls -l")]
    ∧ (runParentChunks initState [[108], [115], [32], [45], [108], [13]]).st.state
        = stateNormal := by
  decide

/-- Counterexample to C5 as stated: when `"ls -l\r"` arrives as a single
framed message in Normal state, the whole chunk is consumed by the
Normal-state default branch — the child does receive `"ls -l\r"`, but
the multiplexer ends in Shell state (not Normal) and the history gains
no ShellInput block at all (the embedded `\r` is never dispatched). -/
theorem plainCommand_single_chunk :
    (muxStep initState (.parentInMsg (strB "ls -l\r"))).childOut = strB "ls -l\r"
    ∧ (muxStep initState (.parentInMsg (strB "ls -l\r"))).st.state = stateShell
    ∧ ¬ (muxStep initState (.parentInMsg (strB "ls -l\r"))).st.state = stateNormal
    ∧ (muxStep initState (.parentInMsg (strB "ls -l\r"))).st.history.blocks = [] := by
  decide

/-- Counterexample to C4 as stated: byte `0xC0` is not an uppercase
ASCII letter, yet in Normal state it transitions the multiplexer to
Prompting (Go converts the byte to the Latin-1 code point À, which
`unicode.IsUpper` accepts); and for the two-byte chunk `"HI"` the prompt
buffer afterwards holds the whole chunk `"HI"`, not just the first
byte. -/
theorem normalState_uppercase_claim_false :
    (parentInput initState [192]).st.state = statePrompting
    ∧ isUpperAscii 192 = false
    ∧ sbString (parentInput initState (strB "HI")).st.prompt = strB "HI"
    ∧ strB "HI" ≠ [72] := by
  decide

/-- C4 (amended): in Normal state the multiplexer transitions to
Prompting if and only if the first input byte, read as a Unicode code
point (Latin-1 for bytes ≥ 0x80), is an uppercase letter
(`unicode.IsUpper(rune(b))`) — this includes A-Z and the Latin-1
uppercase letters; on that transition the prompt buffer is reset and
then receives the *entire* chunk, its color is set to the prompt color
and its prompt length from the cursor column, and exactly one byte is
consumed, the remaining bytes re-entering the input loop (now in
Prompting state). -/
theorem normalState_uppercase_transition :
    ∀ (st : MuxState) (data : BStr), st.state = stateNormal → data ≠ [] →
      (((parentInput st data).st.state = statePrompting) ↔ goIsUpperByte data.head! = true)
      ∧ (goIsUpperByte data.head! = true →
          (parentInput st data).st.prompt =
            sbSetPromptLen (sbSetColor (sbWriteBuf (sbClearBuf st.prompt) data) st.color.prompt)
              ((st.cursorCol : Int) - 1 -
                (sbSize (sbSetColor (sbWriteBuf (sbClearBuf st.prompt) data) st.color.prompt) : Int))
          ∧ (parentInput st data).leftover = some (data.drop 1)) := by
  intro st data hst hne
  match data with
  | d0 :: rest =>
    have hhead : (d0 :: rest).head! = d0 := rfl
    rw [hhead]
    by_cases hup : goIsUpperByte d0 = true
    · have h3 : ¬ d0 = 3 := fun h => by subst h; exact absurd hup (by decide)
      have h12 : ¬ d0 = 12 := fun h => by subst h; exact absurd hup (by decide)
      refine ⟨?_, fun _ => ?_⟩
      · simp [parentInput, hst, stateNormal, statePromptResponse, statePrompting, h3, h12, hup]
      · constructor <;>
          simp [parentInput, hst, stateNormal, statePromptResponse, statePrompting, h3, h12, hup]
    · have hup' : goIsUpperByte d0 = false := by
        revert hup; cases goIsUpperByte d0 <;> simp
      refine ⟨?_, fun hcontra => absurd hcontra (by simp [hup'])⟩
      rw [hup']
      simp only [Bool.false_eq_true, iff_false]
      by_cases h3 : d0 = 3
      · simp [parentInput, hst, h3, hup', statePrompting, stateNormal, statePromptResponse]
      · by_cases h12 : d0 = 12
        · simp [parentInput, hst, h3, h12, hup', statePrompting, stateNormal, statePromptResponse]
        · by_cases h9 : d0 = 9
          · simp [parentInput, hst, h3, h12, h9, hup', goIsUpperByte, statePrompting,
              stateNormal, statePromptResponse]
          · by_cases h13 : d0 = 13
            · simp [parentInput, hst, h3, h12, h9, h13, hup', goIsUpperByte, statePrompting,
                stateNormal, statePromptResponse]
            · by_cases hsz : sbSize (sbWriteBuf mkShellBuffer (d0 :: rest)) > 0
              · simp [parentInput, hst, h3, h12, h9, h13, hup', hsz, statePrompting, stateShell,
                  stateNormal, statePromptResponse]
              · simp [parentInput, hst, h3, h12, h9, h13, hup', hsz, statePrompting, stateNormal,
                  statePromptResponse]

/-- Closed instance of `normalState_uppercase_transition` discharging
its hypotheses on concrete inputs. -/
theorem normalState_uppercase_transition_witness :
    (((parentInput initState [72, 73]).st.state = statePrompting) ↔
      goIsUpperByte ([72, 73] : BStr).head! = true)
    ∧ (goIsUpperByte ([72, 73] : BStr).head! = true →
        (parentInput initState [72, 73]).st.prompt =
          sbSetPromptLen
            (sbSetColor (sbWriteBuf (sbClearBuf initState.prompt) [72, 73])
              initState.color.prompt)
            ((initState.cursorCol : Int) - 1 -
              (sbSize (sbSetColor (sbWriteBuf (sbClearBuf initState.prompt) [72, 73])
                initState.color.prompt) : Int))
        ∧ (parentInput initState [72, 73]).leftover = some (([72, 73] : BStr).drop 1)) :=
  normalState_uppercase_transition initState [72, 73] rfl (by decide)

/-- C2 (amended): while the multiplexer is in PromptResponse state, a
parent-input chunk whose combined buffer (previously stashed bytes plus
the chunk) neither begins nor ends with Ctrl-C (0x03) produces no bytes
to the child, no bytes to the parent, and no history change — but its
bytes are *not* dropped: they accumulate in `parentInBuffer` (leftover
equal to the input is re-stashed by `ParentInputLoop`), and the
completion-result handler replays that buffer through the input loop in
Normal state. -/
theorem promptResponse_input_buffered :
    ∀ (st : MuxState) (d : BStr), st.state = statePromptResponse → d ≠ [] →
      (st.parentInBuffer ++ d).head! ≠ 3 → (st.parentInBuffer ++ d).getLast! ≠ 3 →
      parentInputLoop st d =
        { st := { st with parentInBuffer := st.parentInBuffer ++ d },
          childOut := [], parentOut := [] } := by
  intro st d hst hd hhead hlast
  have hne : st.parentInBuffer ++ d ≠ [] := by
    intro h
    exact hd (List.append_eq_nil.mp h).2
  have hlen : ¬ (st.parentInBuffer ++ d).length = 0 := by
    simpa [List.length_eq_zero] using hne
  unfold parentInputLoop
  simp only [hlen, if_false, ite_false]
  by_cases hinc : incompleteAnsiSequence (st.parentInBuffer ++ d) = true
  · simp [hinc]
  · have hinc' : incompleteAnsiSequence (st.parentInBuffer ++ d) = false := by
      revert hinc; cases incompleteAnsiSequence (st.parentInBuffer ++ d) <;> simp
    simp only [hinc', Bool.false_eq_true, if_false, ite_false]
    match hdata : st.parentInBuffer ++ d with
    | [] => exact absurd hdata hne
    | x :: xs =>
      have hx : x ≠ 3 := by
        rw [hdata] at hhead
        simpa using hhead
      have hxl : (x :: xs).getLast! ≠ 3 := by rw [hdata] at hlast; exact hlast
      have hcond : ¬ (x = 3 || (x :: xs).getLast! = 3) = true := by
        simp [hx, hxl]
      simp only [parentInputLoopGo, List.length_cons, parentInput, hst, if_pos, hcond,
        if_false, ite_false, ite_true]
      simp [parentInput, hst, hcond, statePromptResponse]

/-- A multiplexer state mid-stream: the initial state moved to
PromptResponse. -/
def promptResponseState : MuxState := { initState with state := statePromptResponse }

/-- Counterexample to C2 as stated: in PromptResponse state the chunk
`"x"` (no Ctrl-C) is stashed in the parent-input buffer rather than
dropped, so when the completion result arrives the buffer is *not*
empty, and the completion handler replays it: the child receives the
newline followed by the `"x"` typed during streaming. -/
theorem promptResponse_keystroke_replayed :
    (muxStep promptResponseState (.parentInMsg [120])).st.parentInBuffer = [120]
    ∧ ¬ (muxStep promptResponseState (.parentInMsg [120])).st.parentInBuffer = []
    ∧ (muxStep (muxStep promptResponseState (.parentInMsg [120])).st
        (.promptOutput [])).childOut = [10, 120] := by
  decide

/-- Closed instance of `promptResponse_input_buffered` discharging its
hypotheses on concrete inputs. -/
theorem promptResponse_input_buffered_witness :
    parentInputLoop promptResponseState [120] =
      { st := { promptResponseState with
                parentInBuffer := promptResponseState.parentInBuffer ++ [120] },
        childOut := [], parentOut := [] } :=
  promptResponse_input_buffered promptResponseState [120] rfl (by decide) (by decide) (by decide)

lemma foldl_digits_getLastD (l : List BStr) (h : l ≠ []) :
    ∀ (init : Nat) (d : BStr),
      l.foldl (fun _ ds => digitsToNat ds) init = digitsToNat (l.getLastD d) := by
  induction l with
  | nil => exact absurd rfl h
  | cons x t ih =>
    intro init d
    cases t with
    | nil => simp
    | cons y t2 =>
      rw [List.foldl_cons, ih (by simp) (digitsToNat x) x]
      rfl

/-- C3: `ParsePS1` on the child-output chunk `"\x1bQ🐠 127\x1bR $ "`
(emoji icon configured) returns lastStatus 127, one prompt, and the
cleaned bytes of `"🐠 $ "`; the multiplexer's child-output handler adds
the returned prompt count to `PromptSuffixCounter` for every chunk; and
in general the returned prompt count is the number of trailing-sentinel
matches and the returned status is the decimal value of the
last-matched digit group. -/
theorem parsePS1_sentinel :
    stateParsePS1 false (strB "\x1bQ🐠 127\x1bR $ ") = (127, 1, strB "🐠 $ ")
    ∧ (∀ (st : MuxState) (data : BStr),
        (muxStep st (.childOutMsg data)).st.promptSuffixCounter =
          st.promptSuffixCounter + (stateParsePS1 st.shellLeavePromptAlone data).2.1)
    ∧ (∀ (data pre icon : BStr), (ps1FindAll pre icon data).1 ≠ [] →
        (parsePS1 data pre icon).2.1 = (ps1FindAll pre icon data).1.length
        ∧ (parsePS1 data pre icon).1 =
            digitsToNat ((ps1FindAll pre icon data).1.getLastD [])) := by
  refine ⟨by decide, ?_, ?_⟩
  · intro st data
    simp only [muxStep]
    split
    · rfl
    · split
      · rfl
      · rfl
  · intro data pre icon hne
    have hlen : ¬ (ps1FindAll pre icon data).1.length = 0 := by
      simpa [List.length_eq_zero] using hne
    constructor
    · simp [parsePS1, hlen]
    · simp [parsePS1, hlen]
      rw [← List.getLastD_eq_getLast?]
      exact foldl_digits_getLastD _ hne 0 []

/-- Closed instance of `parsePS1_sentinel` discharging its hypotheses on
a concrete input (the chunk `" 5\x1bR"` with the plain sentinel
pattern). -/
theorem parsePS1_sentinel_witness :
    (parsePS1 [32, 53, 27, 82] [32] []).2.1 = (ps1FindAll [32] [] [32, 53, 27, 82]).1.length
    ∧ (parsePS1 [32, 53, 27, 82] [32] []).1 =
        digitsToNat ((ps1FindAll [32] [] [32, 53, 27, 82]).1.getLastD []) :=
  parsePS1_sentinel.2.2 [32, 53, 27, 82] [32] [] (by decide)

lemma ghbtGo_spec (encoder : Encoder) (mhbt maxT tpm : Nat) :
    ∀ (l : List HistoryBuffer) (used : Nat),
      ((ghbtGo encoder mhbt maxT tpm l used).2.1 = used
        ∨ (ghbtGo encoder mhbt maxT tpm l used).2.1 ≤ maxT)
      ∧ (∃ costs : List Nat, costs.length = (ghbtGo encoder mhbt maxT tpm l used).1.length
          ∧ (ghbtGo encoder mhbt maxT tpm l used).2.1 = used + costs.sum)
      ∧ (∀ b ∈ (ghbtGo encoder mhbt maxT tpm l used).1, b.type ≠ historyTypeShellOutput)
      ∧ ((ghbtGo encoder mhbt maxT tpm l used).1.map OutBlock.type).Sublist
          (l.reverse.map HistoryBuffer.type) := by
  intro l
  induction l with
  | nil =>
    intro used
    exact ⟨Or.inl (by simp [ghbtGo]), ⟨[], by simp [ghbtGo], by simp [ghbtGo]⟩,
      by simp [ghbtGo], by simp [ghbtGo]⟩
  | cons hb rest ih =>
    intro used
    by_cases h1 : hb.type = historyTypeShellOutput
    · have heq : ghbtGo encoder mhbt maxT tpm (hb :: rest) used =
          ((ghbtGo encoder mhbt maxT tpm rest used).1,
           (ghbtGo encoder mhbt maxT tpm rest used).2.1,
           hb :: (ghbtGo encoder mhbt maxT tpm rest used).2.2) := by
        simp [ghbtGo, h1]
      obtain ⟨hbound, hcosts, hfilter, hsub⟩ := ih used
      rw [heq]
      refine ⟨hbound, hcosts, hfilter, ?_⟩
      simp only [List.reverse_cons, List.map_append]
      exact hsub.trans (List.sublist_append_left _ _)
    · by_cases h2 : sbSize hb.content = 0
      · have heq : ghbtGo encoder mhbt maxT tpm (hb :: rest) used =
            ((ghbtGo encoder mhbt maxT tpm rest used).1,
             (ghbtGo encoder mhbt maxT tpm rest used).2.1,
             hb :: (ghbtGo encoder mhbt maxT tpm rest used).2.2) := by
          simp [ghbtGo, h1, h2]
        obtain ⟨hbound, hcosts, hfilter, hsub⟩ := ih used
        rw [heq]
        refine ⟨hbound, hcosts, hfilter, ?_⟩
        simp only [List.reverse_cons, List.map_append]
        exact hsub.trans (List.sublist_append_left _ _)
      · set m := tpm + (encoder.encode (shellHistoryTypeToRole hb.type)).length
          + (visitBlock encoder mhbt hb).2.1 with hm
        by_cases h3 : used + m > maxT
        · have heq : ghbtGo encoder mhbt maxT tpm (hb :: rest) used =
              ([], used, (visitBlock encoder mhbt hb).2.2 :: rest) := by
            simp [ghbtGo, h1, h2, ← hm, h3]
          rw [heq]
          exact ⟨Or.inl rfl, ⟨[], rfl, by simp⟩, by simp, by simp⟩
        · have heq : ghbtGo encoder mhbt maxT tpm (hb :: rest) used =
              ((ghbtGo encoder mhbt maxT tpm rest (used + m)).1
                  ++ [{ type := hb.type, content := (visitBlock encoder mhbt hb).1 }],
               (ghbtGo encoder mhbt maxT tpm rest (used + m)).2.1,
               (visitBlock encoder mhbt hb).2.2
                  :: (ghbtGo encoder mhbt maxT tpm rest (used + m)).2.2) := by
            simp [ghbtGo, h1, h2, ← hm, h3]
          obtain ⟨hbound, ⟨costs, hclen, hcsum⟩, hfilter, hsub⟩ := ih (used + m)
          rw [heq]
          refine ⟨?_, ⟨m :: costs, ?_, ?_⟩, ?_, ?_⟩
          · right
            rcases hbound with he | hle
            · exact le_trans (le_of_eq he) (by omega)
            · exact hle
          · simp [hclen]
          · dsimp only
            simp only [List.sum_cons]
            omega
          · intro b hmem
            rcases List.mem_append.mp hmem with hin | hin
            · exact hfilter b hin
            · have hb' : b = { type := hb.type, content := (visitBlock encoder mhbt hb).1 } := by
                simpa using hin
              rw [hb']
              exact h1
          · simp only [List.map_append, List.reverse_cons, List.map_cons, List.map_nil]
            exact List.Sublist.append hsub (by simp)

/-- C1: whenever `assembleChat` succeeds, the combined budget holds: the
baseline of 3 tokens, plus the (possibly truncated) prompt's token
count, plus the system message's token count, plus the per-message
overhead, plus the history walk's token total — itself a sum of one
per-message cost for every returned block — is at most `maxTokens`; no
returned block has kind ShellOutput; and the returned blocks form an
order-preserving (oldest-first chronological) selection of the history's
blocks. -/
theorem assembleChat_budget :
    ∀ (prompt sysMsg : BStr) (history : ShellHistory) (tpm : Nat) (encoder : Encoder)
      (maxPromptTokens maxHistoryBlockTokens maxTokens : Nat)
      (p' : BStr) (blocks : List OutBlock) (hist' : ShellHistory),
      assembleChat prompt sysMsg history tpm encoder maxPromptTokens maxHistoryBlockTokens
          maxTokens = .ok (p', blocks, hist') →
      (3 + (countAndTruncate prompt encoder maxPromptTokens).1
        + (encoder.encode sysMsg).length + tpm
        + (getHistoryBlocksByTokens history encoder maxHistoryBlockTokens
            (maxTokens - (3 + (countAndTruncate prompt encoder maxPromptTokens).1
              + (encoder.encode sysMsg).length + tpm)) tpm).2.1 ≤ maxTokens)
      ∧ (∃ costs : List Nat, costs.length = blocks.length
          ∧ (getHistoryBlocksByTokens history encoder maxHistoryBlockTokens
              (maxTokens - (3 + (countAndTruncate prompt encoder maxPromptTokens).1
                + (encoder.encode sysMsg).length + tpm)) tpm).2.1 = costs.sum)
      ∧ (∀ b ∈ blocks, b.type ≠ historyTypeShellOutput)
      ∧ (blocks.map OutBlock.type).Sublist (history.blocks.map HistoryBuffer.type) := by
  intro prompt sysMsg history tpm encoder mpt mhbt maxT p' blocks hist' h
  unfold assembleChat at h
  by_cases hgt : 3 + (countAndTruncate prompt encoder mpt).1
      + (encoder.encode sysMsg).length + tpm > maxT
  · simp only [hgt, if_pos, ite_true] at h
    exact absurd h (by simp)
  · simp only [hgt, if_neg, ite_false] at h
    simp only [Except.ok.injEq, Prod.mk.injEq] at h
    obtain ⟨-, hblocks, -⟩ := h
    have hspec := ghbtGo_spec encoder mhbt
      (maxT - (3 + (countAndTruncate prompt encoder mpt).1
        + (encoder.encode sysMsg).length + tpm)) tpm history.blocks.reverse 0
    obtain ⟨hbound, ⟨costs, hclen, hcsum⟩, hfilter, hsub⟩ := hspec
    refine ⟨?_, ⟨costs, ?_, ?_⟩, ?_, ?_⟩
    · have hle : (getHistoryBlocksByTokens history encoder mhbt
          (maxT - (3 + (countAndTruncate prompt encoder mpt).1
            + (encoder.encode sysMsg).length + tpm)) tpm).2.1
          ≤ maxT - (3 + (countAndTruncate prompt encoder mpt).1
            + (encoder.encode sysMsg).length + tpm) := by
        rcases hbound with he | hle
        · exact le_trans (le_of_eq he) (Nat.zero_le _)
        · exact hle
      omega
    · rw [← hblocks]
      exact hclen
    · simpa using hcsum
    · intro b hb
      rw [← hblocks] at hb
      exact hfilter b hb
    · rw [← hblocks]
      simpa [List.reverse_reverse] using hsub

/-- Closed instance of `assembleChat_budget` discharging its hypothesis
on a concrete successful assembly. -/
theorem assembleChat_budget_witness :
    3 + (countAndTruncate [97] idEncoder 10).1 + (idEncoder.encode [98]).length + 1
      + (getHistoryBlocksByTokens mkShellHistory idEncoder 10
          (100 - (3 + (countAndTruncate [97] idEncoder 10).1
            + (idEncoder.encode [98]).length + 1)) 1).2.1 ≤ 100 :=
  (assembleChat_budget [97] [98] mkShellHistory 1 idEncoder 10 10 100
    [97] [] mkShellHistory rfl).1

/-- C10: the error-channel case of the Mux select loop appends the error
text to history with kind ShellOutput, writes the error-colored message
to the parent, sets the state to Normal, and writes a single newline to
the child; and `getHistoryBlocksByTokens` never returns a ShellOutput
block, so the recorded error can appear in no later LLM request. -/
theorem printError_shellOutput_excluded :
    (∀ (st : MuxState) (e : BStr),
      muxStep st (.printError e) =
        { st := { st with history := shAppend st.history historyTypeShellOutput e,
                          state := stateNormal },
          childOut := [10], parentOut := st.color.error ++ e })
    ∧ (∀ (history : ShellHistory) (encoder : Encoder) (mhbt maxT tpm : Nat),
        ∀ b ∈ (getHistoryBlocksByTokens history encoder mhbt maxT tpm).1,
          b.type ≠ historyTypeShellOutput) := by
  refine ⟨fun st e => rfl, ?_⟩
  intro history encoder mhbt maxT tpm b hb
  exact (ghbtGo_spec encoder mhbt maxT tpm history.blocks.reverse 0).2.2.1 b hb

/-- A one-block history used to instantiate the assembler theorems. -/
def onePromptHistory : ShellHistory :=
  { blocks := [{ type := historyTypePrompt, content := sbWriteBuf mkShellBuffer [97],
                 tokenizations := [] }] }

/-- Closed instance of `printError_shellOutput_excluded` discharging its
hypotheses on concrete inputs. -/
theorem printError_shellOutput_excluded_witness :
    muxStep initState (.printError [101]) =
      { st := { initState with
                  history := shAppend initState.history historyTypeShellOutput [101],
                  state := stateNormal },
        childOut := [10], parentOut := initState.color.error ++ [101] }
    ∧ ({ type := historyTypePrompt, content := [97] } : OutBlock).type
        ≠ historyTypeShellOutput :=
  ⟨printError_shellOutput_excluded.1 initState [101],
   printError_shellOutput_excluded.2 onePromptHistory idEncoder 10 100 0
     { type := historyTypePrompt, content := [97] } (by decide)⟩

/-- Drop every cached tokenization from a block. -/
def clearTok (hb : HistoryBuffer) : HistoryBuffer := { hb with tokenizations := [] }

/-- A history with all tokenization caches cleared. -/
def clearCaches (h : ShellHistory) : ShellHistory := { blocks := h.blocks.map clearTok }

/-- A block's cache is accurate for an encoder when any entry it holds
for that encoder whose recorded input length matches the content's
current size agrees with fresh recomputation on the current content. -/
def cacheAccurate (encoder : Encoder) (mhbt : Nat) (hb : HistoryBuffer) : Prop :=
  ∀ t, hb.tokenizations.lookup encoder.encoderName = some t →
    t.inputLength = sbSize hb.content →
    (t.data, t.numTokens) = computeTokenization encoder mhbt hb.content

lemma cacheAccurate_clearTok (encoder : Encoder) (mhbt : Nat) (hb : HistoryBuffer) :
    cacheAccurate encoder mhbt (clearTok hb) := by
  intro t ht _
  simp [clearTok, List.lookup] at ht

lemma visitBlock_content (encoder : Encoder) (mhbt : Nat) (hb : HistoryBuffer)
    (hacc : cacheAccurate encoder mhbt hb) :
    (visitBlock encoder mhbt hb).1 = (computeTokenization encoder mhbt hb.content).1
    ∧ (visitBlock encoder mhbt hb).2.1 = (computeTokenization encoder mhbt hb.content).2 := by
  cases hget : hbGetTokenization hb encoder.encoderName (sbSize hb.content) with
  | none => simp [visitBlock, hget]
  | some p =>
    have hp : p = ((computeTokenization encoder mhbt hb.content).1,
        (computeTokenization encoder mhbt hb.content).2) := by
      unfold hbGetTokenization at hget
      cases hlook : hb.tokenizations.lookup encoder.encoderName with
      | none =>
        rw [hlook] at hget
        simp at hget
      | some t =>
        simp only [hlook] at hget
        by_cases hlen : t.inputLength = sbSize hb.content
        · have hcond : ¬ t.inputLength ≠ sbSize hb.content := by omega
          rw [if_neg hcond] at hget
          have hdata := hacc t hlook hlen
          have hpt : p = (t.data, t.numTokens) := by
            simpa using hget.symm
          rw [hpt, hdata]
        · rw [if_pos hlen] at hget
          simp at hget
    subst hp
    simp [visitBlock, hget]

lemma ghbtGo_cache_independent (encoder : Encoder) (mhbt maxT tpm : Nat) :
    ∀ (l : List HistoryBuffer) (used : Nat), (∀ hb ∈ l, cacheAccurate encoder mhbt hb) →
      (ghbtGo encoder mhbt maxT tpm l used).1
        = (ghbtGo encoder mhbt maxT tpm (l.map clearTok) used).1
      ∧ (ghbtGo encoder mhbt maxT tpm l used).2.1
        = (ghbtGo encoder mhbt maxT tpm (l.map clearTok) used).2.1 := by
  intro l
  induction l with
  | nil => intro used _; exact ⟨rfl, rfl⟩
  | cons hb rest ih =>
    intro used hacc
    have haccHb : cacheAccurate encoder mhbt hb := hacc hb (by simp)
    have haccRest : ∀ b ∈ rest, cacheAccurate encoder mhbt b :=
      fun b hbmem => hacc b (by simp [hbmem])
    have hmap : (hb :: rest).map clearTok = clearTok hb :: rest.map clearTok := rfl
    rw [hmap]
    have hct : (clearTok hb).type = hb.type := rfl
    have hcc : (clearTok hb).content = hb.content := rfl
    by_cases h1 : hb.type = historyTypeShellOutput
    · have h1c : (clearTok hb).type = historyTypeShellOutput := h1
      obtain ⟨e1, e2⟩ := ih used haccRest
      have heqL : ghbtGo encoder mhbt maxT tpm (hb :: rest) used =
          ((ghbtGo encoder mhbt maxT tpm rest used).1,
           (ghbtGo encoder mhbt maxT tpm rest used).2.1,
           hb :: (ghbtGo encoder mhbt maxT tpm rest used).2.2) := by
        simp [ghbtGo, h1]
      have heqR : ghbtGo encoder mhbt maxT tpm (clearTok hb :: rest.map clearTok) used =
          ((ghbtGo encoder mhbt maxT tpm (rest.map clearTok) used).1,
           (ghbtGo encoder mhbt maxT tpm (rest.map clearTok) used).2.1,
           clearTok hb :: (ghbtGo encoder mhbt maxT tpm (rest.map clearTok) used).2.2) := by
        rw [ghbtGo, if_pos h1c]
      rw [heqL, heqR]
      exact ⟨e1, e2⟩
    · by_cases h2 : sbSize hb.content = 0
      · have h1c : ¬ (clearTok hb).type = historyTypeShellOutput := h1
        have h2c : sbSize (clearTok hb).content = 0 := h2
        obtain ⟨e1, e2⟩ := ih used haccRest
        have heqL : ghbtGo encoder mhbt maxT tpm (hb :: rest) used =
            ((ghbtGo encoder mhbt maxT tpm rest used).1,
             (ghbtGo encoder mhbt maxT tpm rest used).2.1,
             hb :: (ghbtGo encoder mhbt maxT tpm rest used).2.2) := by
          simp [ghbtGo, h1, h2]
        have heqR : ghbtGo encoder mhbt maxT tpm (clearTok hb :: rest.map clearTok) used =
            ((ghbtGo encoder mhbt maxT tpm (rest.map clearTok) used).1,
             (ghbtGo encoder mhbt maxT tpm (rest.map clearTok) used).2.1,
             clearTok hb :: (ghbtGo encoder mhbt maxT tpm (rest.map clearTok) used).2.2) := by
          rw [ghbtGo, if_neg h1c, if_pos h2c]
        rw [heqL, heqR]
        exact ⟨e1, e2⟩
      · have h1c : ¬ (clearTok hb).type = historyTypeShellOutput := h1
        have h2c : ¬ sbSize (clearTok hb).content = 0 := h2
        have hvA := visitBlock_content encoder mhbt hb haccHb
        have hvB := visitBlock_content encoder mhbt (clearTok hb)
          (cacheAccurate_clearTok encoder mhbt hb)
        have hcompute : computeTokenization encoder mhbt (clearTok hb).content
            = computeTokenization encoder mhbt hb.content := rfl
        have hv1 : (visitBlock encoder mhbt (clearTok hb)).1
            = (visitBlock encoder mhbt hb).1 := by
          rw [hvA.1, hvB.1, hcompute]
        have hv2 : (visitBlock encoder mhbt (clearTok hb)).2.1
            = (visitBlock encoder mhbt hb).2.1 := by
          rw [hvA.2, hvB.2, hcompute]
        have hmr : tpm + (encoder.encode (shellHistoryTypeToRole (clearTok hb).type)).length
            + (visitBlock encoder mhbt (clearTok hb)).2.1
            = tpm + (encoder.encode (shellHistoryTypeToRole hb.type)).length
              + (visitBlock encoder mhbt hb).2.1 := by
          rw [hct, hv2]
        by_cases h3 : used + (tpm + (encoder.encode (shellHistoryTypeToRole hb.type)).length
            + (visitBlock encoder mhbt hb).2.1) > maxT
        · have h3c : used + (tpm
              + (encoder.encode (shellHistoryTypeToRole (clearTok hb).type)).length
              + (visitBlock encoder mhbt (clearTok hb)).2.1) > maxT := by
            rw [hmr]; exact h3
          have heqL : ghbtGo encoder mhbt maxT tpm (hb :: rest) used =
              ([], used, (visitBlock encoder mhbt hb).2.2 :: rest) := by
            rw [ghbtGo, if_neg h1, if_neg h2, if_pos h3]
          have heqR : ghbtGo encoder mhbt maxT tpm (clearTok hb :: rest.map clearTok) used =
              ([], used, (visitBlock encoder mhbt (clearTok hb)).2.2 :: rest.map clearTok) := by
            rw [ghbtGo, if_neg h1c, if_neg h2c, if_pos h3c]
          rw [heqL, heqR]
          exact ⟨rfl, rfl⟩
        · have h3c : ¬ used + (tpm
              + (encoder.encode (shellHistoryTypeToRole (clearTok hb).type)).length
              + (visitBlock encoder mhbt (clearTok hb)).2.1) > maxT := by
            rw [hmr]; exact h3
          obtain ⟨e1, e2⟩ := ih (used + (tpm
            + (encoder.encode (shellHistoryTypeToRole hb.type)).length
            + (visitBlock encoder mhbt hb).2.1)) haccRest
          have heqL : ghbtGo encoder mhbt maxT tpm (hb :: rest) used =
              ((ghbtGo encoder mhbt maxT tpm rest (used
                  + (tpm + (encoder.encode (shellHistoryTypeToRole hb.type)).length
                    + (visitBlock encoder mhbt hb).2.1))).1
                  ++ [{ type := hb.type, content := (visitBlock encoder mhbt hb).1 }],
               (ghbtGo encoder mhbt maxT tpm rest (used
                  + (tpm + (encoder.encode (shellHistoryTypeToRole hb.type)).length
                    + (visitBlock encoder mhbt hb).2.1))).2.1,
               (visitBlock encoder mhbt hb).2.2
                  :: (ghbtGo encoder mhbt maxT tpm rest (used
                    + (tpm + (encoder.encode (shellHistoryTypeToRole hb.type)).length
                      + (visitBlock encoder mhbt hb).2.1))).2.2) := by
            rw [ghbtGo, if_neg h1, if_neg h2, if_neg h3]
          have heqR : ghbtGo encoder mhbt maxT tpm (clearTok hb :: rest.map clearTok) used =
              ((ghbtGo encoder mhbt maxT tpm (rest.map clearTok) (used
                  + (tpm + (encoder.encode (shellHistoryTypeToRole hb.type)).length
                    + (visitBlock encoder mhbt hb).2.1))).1
                  ++ [{ type := (clearTok hb).type,
                        content := (visitBlock encoder mhbt (clearTok hb)).1 }],
               (ghbtGo encoder mhbt maxT tpm (rest.map clearTok) (used
                  + (tpm + (encoder.encode (shellHistoryTypeToRole hb.type)).length
                    + (visitBlock encoder mhbt hb).2.1))).2.1,
               (visitBlock encoder mhbt (clearTok hb)).2.2
                  :: (ghbtGo encoder mhbt maxT tpm (rest.map clearTok) (used
                    + (tpm + (encoder.encode (shellHistoryTypeToRole hb.type)).length
                      + (visitBlock encoder mhbt hb).2.1))).2.2) := by
            rw [ghbtGo, if_neg h1c, if_neg h2c, if_neg h3c, hmr]
          rw [heqL, heqR]
          constructor
          · simp only [hct, hv1]
            rw [e1]
          · exact e2

/-- C9 (amended): chat assembly is insensitive to the tokenization cache
*provided the cached entries agree with the blocks' current contents*:
when every cache entry whose recorded input length equals the content's
current size equals fresh recomputation, `getHistoryBlocksByTokens`
returns the same block list and token total with or without the cache.
A cached entry is consulted only when its recorded input length equals
the content's current size — which does not imply the content is the one
the entry was computed from. -/
theorem getHistoryBlocks_cache_transparent :
    ∀ (history : ShellHistory) (encoder : Encoder) (mhbt maxT tpm : Nat),
      (∀ hb ∈ history.blocks, cacheAccurate encoder mhbt hb) →
      (getHistoryBlocksByTokens history encoder mhbt maxT tpm).1
        = (getHistoryBlocksByTokens (clearCaches history) encoder mhbt maxT tpm).1
      ∧ (getHistoryBlocksByTokens history encoder mhbt maxT tpm).2.1
        = (getHistoryBlocksByTokens (clearCaches history) encoder mhbt maxT tpm).2.1 := by
  intro history encoder mhbt maxT tpm hacc
  have hrev : (clearCaches history).blocks.reverse = history.blocks.reverse.map clearTok := by
    simp [clearCaches]
  have haccRev : ∀ hb ∈ history.blocks.reverse, cacheAccurate encoder mhbt hb := by
    intro hb hmem
    exact hacc hb (List.mem_reverse.mp hmem)
  obtain ⟨e1, e2⟩ := ghbtGo_cache_independent encoder mhbt maxT tpm
    history.blocks.reverse 0 haccRev
  constructor
  · simpa [getHistoryBlocksByTokens, hrev] using e1
  · simpa [getHistoryBlocksByTokens, hrev] using e2

/-- A history whose single block carries a cache entry left by an
earlier assembler call, after which the content was changed from `"a"`
to `"b"` (backspace then `b`) without changing its size. -/
def staleCacheHistory : ShellHistory :=
  shAppend (getHistoryBlocksByTokens onePromptHistory idEncoder 100 100 0).2.2
    historyTypePrompt [8, 98]

/-- Counterexample to C9 as stated: the cache entry was left by an
earlier `getHistoryBlocksByTokens` call with the same encoder, yet
because the block's content later changed to different bytes of the
same length, the cached run returns the stale content (`"a"`) while the
empty-cache run returns the current content (`"b"`). -/
theorem getHistoryBlocks_stale_cache :
    (getHistoryBlocksByTokens staleCacheHistory idEncoder 100 100 0).1
      ≠ (getHistoryBlocksByTokens (clearCaches staleCacheHistory) idEncoder 100 100 0).1 := by
  decide

/-- Closed instance of `getHistoryBlocks_cache_transparent` discharging
its hypothesis on a concrete input. -/
theorem getHistoryBlocks_cache_transparent_witness :
    (getHistoryBlocksByTokens onePromptHistory idEncoder 10 100 1).1
      = (getHistoryBlocksByTokens (clearCaches onePromptHistory) idEncoder 10 100 1).1
    ∧ (getHistoryBlocksByTokens onePromptHistory idEncoder 10 100 1).2.1
      = (getHistoryBlocksByTokens (clearCaches onePromptHistory) idEncoder 10 100 1).2.1 :=
  getHistoryBlocks_cache_transparent onePromptHistory idEncoder 10 100 1
    (by
      intro hb hmem t ht hlen
      simp only [onePromptHistory, List.mem_singleton] at hmem
      subst hmem
      simp [List.lookup] at ht)

/-- Default block used with `List.getD` in index statements. -/
def defaultHB : HistoryBuffer :=
  { type := 0, content := mkShellBuffer, tokenizations := [] }

/-- The per-block transformation of `GetLastNBytes`. -/
def procOut (truncLen : Nat) (hb : HistoryBuffer) : OutBlock :=
  { type := hb.type, content := glnbContent truncLen hb }

/-- Sum of the content lengths of a `GetLastNBytes` result. -/
def glnbSum (h : ShellHistory) (maxB truncLen : Nat) : Nat :=
  ((shGetLastNBytes h maxB truncLen).map (fun b => b.content.length)).sum

/-- C8 as stated: the result is a contiguous oldest-first run of the
most recent blocks, sanitized and cut, with total length at most
`maxB`, and the walk stops exactly at the newest block whose truncated
content does not fit in the remaining budget. -/
def lastNBytesClaim (h : ShellHistory) (maxB truncLen : Nat) : Prop :=
  ∃ k : Fin (h.blocks.length + 1),
    shGetLastNBytes h maxB truncLen = (h.blocks.drop k.val).map (procOut truncLen)
    ∧ glnbSum h maxB truncLen ≤ maxB
    ∧ (k.val = 0
       ∨ (glnbContent truncLen (h.blocks.getD (k.val - 1) defaultHB)).length
           > maxB - glnbSum h maxB truncLen)

/-- C8 amended: the walk may also stop because the remaining budget
reached exactly zero, excluding a newest block whose (possibly empty)
truncated content would have fit. -/
def lastNBytesAmended (h : ShellHistory) (maxB truncLen : Nat) : Prop :=
  ∃ k : Fin (h.blocks.length + 1),
    shGetLastNBytes h maxB truncLen = (h.blocks.drop k.val).map (procOut truncLen)
    ∧ glnbSum h maxB truncLen ≤ maxB
    ∧ (k.val = 0
       ∨ maxB - glnbSum h maxB truncLen = 0
       ∨ (glnbContent truncLen (h.blocks.getD (k.val - 1) defaultHB)).length
           > maxB - glnbSum h maxB truncLen)

/-- History whose oldest block sanitizes to empty content (a BEL byte)
and whose newest block is `"ab"`. -/
def bellAbHistory : ShellHistory :=
  { blocks := [{ type := 0, content := sbWriteBuf mkShellBuffer [7], tokenizations := [] },
               { type := 1, content := sbWriteBuf mkShellBuffer [97, 98], tokenizations := [] }] }

/-- Counterexample to C8 as stated: with budget 2 the newest block
`"ab"` is included and exhausts the budget; the walk then stops even
though the next block's sanitized content is empty and would fit
(`0 ≤ 0`), so no stopping block violating the budget exists and the
claimed stop condition fails. -/
theorem lastNBytes_budget_exhaustion : ¬ lastNBytesClaim bellAbHistory 2 10 := by
  rintro ⟨k, heq, hsum, hstop⟩
  fin_cases k
  · revert heq
    decide
  · revert hstop
    decide
  · revert heq
    decide

lemma glnbGo_spec (truncLen : Nat) :
    ∀ (l : List HistoryBuffer) (n : Nat),
      ∃ j : Nat, j ≤ l.length
        ∧ glnbGo truncLen l n = (l.take j).map (procOut truncLen)
        ∧ ((glnbGo truncLen l n).map (fun b => b.content.length)).sum ≤ n
        ∧ (j = l.length
           ∨ n - ((glnbGo truncLen l n).map (fun b => b.content.length)).sum = 0
           ∨ (j < l.length
              ∧ (glnbContent truncLen (l.getD j defaultHB)).length
                  > n - ((glnbGo truncLen l n).map (fun b => b.content.length)).sum)) := by
  intro l
  induction l with
  | nil =>
    intro n
    exact ⟨0, Nat.le_refl 0, by simp [glnbGo], by simp [glnbGo], Or.inl rfl⟩
  | cons hb rest ih =>
    intro n
    by_cases hn : n = 0
    · refine ⟨0, Nat.zero_le _, ?_, ?_, Or.inr (Or.inl ?_)⟩
      · simp [glnbGo, hn]
      · simp [glnbGo, hn]
      · simp [glnbGo, hn]
    · by_cases hfit : (glnbContent truncLen hb).length > n
      · have heqGo : glnbGo truncLen (hb :: rest) n = [] := by
          simp only [glnbGo, if_neg hn, if_pos hfit]
        refine ⟨0, Nat.zero_le _, ?_, ?_, Or.inr (Or.inr ⟨by simp, ?_⟩)⟩
        · simp [heqGo]
        · simp [heqGo]
        · rw [heqGo]
          simpa using hfit
      · have heqGo : glnbGo truncLen (hb :: rest) n =
            { type := hb.type, content := glnbContent truncLen hb }
              :: glnbGo truncLen rest (n - (glnbContent truncLen hb).length) := by
          simp only [glnbGo, if_neg hn, if_neg hfit]
        have hcle : (glnbContent truncLen hb).length ≤ n := by omega
        obtain ⟨j', hle, heq, hsum, hstop⟩ := ih (n - (glnbContent truncLen hb).length)
        refine ⟨j' + 1, by simpa using Nat.succ_le_succ hle, ?_, ?_, ?_⟩
        · rw [heqGo, heq]
          rfl
        · rw [heqGo]
          simp only [List.map_cons, List.sum_cons]
          omega
        · rcases hstop with hall | hzero | ⟨hlt, hnf⟩
          · exact Or.inl (by simp [hall])
          · refine Or.inr (Or.inl ?_)
            rw [heqGo]
            simp only [List.map_cons, List.sum_cons]
            omega
          · refine Or.inr (Or.inr ⟨by simpa using Nat.succ_lt_succ hlt, ?_⟩)
            rw [heqGo]
            simp only [List.getD_cons_succ, List.map_cons, List.sum_cons]
            omega

/-- C8 (amended): for every `maxBytes` and `truncateLen`,
`GetLastNBytes` returns a contiguous run of the most recent history
blocks in oldest-first order, each content sanitized and cut to at most
`truncateLen` bytes, with total length at most `maxBytes`; the walk
stops either at the whole history, or when the remaining budget is
exactly zero, or at a newest excluded block whose truncated content
does not fit in the remaining budget. -/
theorem lastNBytes_spec :
    ∀ (h : ShellHistory) (maxB truncLen : Nat), lastNBytesAmended h maxB truncLen := by
  intro h maxB truncLen
  obtain ⟨j, hle, heq, hsum, hstop⟩ := glnbGo_spec truncLen h.blocks.reverse maxB
  rw [List.length_reverse] at hle
  have hres : shGetLastNBytes h maxB truncLen
      = (h.blocks.drop (h.blocks.length - j)).map (procOut truncLen) := by
    unfold shGetLastNBytes
    rw [heq, ← List.map_reverse, List.reverse_take, List.reverse_reverse, List.length_reverse]
  have hsumeq : glnbSum h maxB truncLen
      = ((glnbGo truncLen h.blocks.reverse maxB).map (fun b => b.content.length)).sum := by
    unfold glnbSum shGetLastNBytes
    rw [List.map_reverse, List.sum_reverse]
  refine ⟨⟨h.blocks.length - j, by omega⟩, hres, ?_, ?_⟩
  · rw [hsumeq]
    exact hsum
  · rcases hstop with hall | hzero | ⟨hlt, hnf⟩
    · rw [List.length_reverse] at hall
      exact Or.inl (by simp [hall])
    · refine Or.inr (Or.inl ?_)
      rw [hsumeq]
      exact hzero
    · rw [List.length_reverse] at hlt
      refine Or.inr (Or.inr ?_)
      have hgetd : h.blocks.reverse.getD j defaultHB
          = h.blocks.getD (h.blocks.length - 1 - j) defaultHB := by
        rw [List.getD_eq_getElem?_getD, List.getD_eq_getElem?_getD,
          List.getElem?_reverse hlt]
      have hidx : (h.blocks.length - j) - 1 = h.blocks.length - 1 - j := by omega
      simp only [hidx]
      rw [← hgetd, hsumeq]
      exact hnf
